import Mathlib

/-!
Verification of the discrete-event simulation core of the PMCNS project:
a shallow embedding of the event scheduler (`simulator/scheduler.py`,
`simulator/event.py`), the processor-sharing node (`simulator/node.py`),
the network layer (`simulator/network.py`), the multi-stream Lehmer
generator (`lemer/rngs.py`) and the busy-time estimator
(`simulator/estimators.py`, `simulator/simulation.py`).

Machine floats are modelled by `ℚ`; Python integers by `Int`/`Nat`;
Python dictionaries by association lists; fallible operations
(dictionary lookup raising KeyError, seeding branches that read the
system clock or stdin) by `Option`/`Except`.
-/

namespace PMCNS

/-- Embedding of `Event` from `simulator/event.py`: a timestamped
occurrence with a creation id used as scheduling tie-break and a lazy
cancellation flag. The global `itertools.count` id source is modelled by
threading an explicit next-id counter through the operations that
construct events. -/
structure Event where
  id : Nat
  time : ℚ
  event_type : String
  server : String
  job_id : Option Nat
  job_class : String
  cancelled : Bool
  deriving DecidableEq, Repr

/-- `Event.__lt__`: equal times are broken by creation id, otherwise
compare times. -/
def Event.ltb (a b : Event) : Bool :=
  if a.time = b.time then a.id < b.id else a.time < b.time

/-- Embedding of `Job` from `simulator/job.py`. -/
structure Job where
  id : Nat
  job_class : String
  arrival_time : ℚ
  remaining_service : ℚ
  deriving DecidableEq, Repr

/-- The scheduler state of `NextEventScheduler` (`simulator/scheduler.py`):
the heap `event_queue` is modelled as a list treated as a multiset (the
pop operation removes a `__lt__`-minimal element, which is exactly what
`heapq.heappop` returns). The `job_table`, `subscribers` and
`interceptors` fields carry no arithmetic content for the verified
properties: `next` dispatches the popped event itself to every handler,
so dispatch is modelled by the event `next` returns. -/
structure NextEventScheduler where
  event_queue : List Event
  current_time : ℚ
  deriving DecidableEq, Repr

/-- `NextEventScheduler.schedule`: `event.time` is recomputed as
`current_time + delay` only when `delay` is truthy (non-zero), then the
event is pushed onto the heap. -/
def NextEventScheduler.schedule (s : NextEventScheduler) (event : Event)
    (delay : ℚ) : NextEventScheduler :=
  let event := if delay ≠ 0 then { event with time := s.current_time + delay } else event
  { s with event_queue := s.event_queue ++ [event] }

/-- The queue transformation of `NextEventScheduler.cancel`: the flag is
set only when the event is physically contained in `event_queue`
(Python membership here is object identity, which coincides with id
equality because event ids are globally unique). -/
def cancelQ (q : List Event) (event : Event) : List Event :=
  if (q.map Event.id).contains event.id then
    q.map (fun x => if x.id = event.id then { x with cancelled := true } else x)
  else q

/-- `NextEventScheduler.cancel`. -/
def NextEventScheduler.cancel (s : NextEventScheduler) (event : Event) :
    NextEventScheduler :=
  { s with event_queue := cancelQ s.event_queue event }

/-- `NextEventScheduler.has_next`: true iff some queued event is not
cancelled. -/
def NextEventScheduler.has_next (s : NextEventScheduler) : Bool :=
  s.event_queue.any (fun e => !e.cancelled)

/-- `heapq.heappop`: remove a `__lt__`-minimal element (the leftmost
minimal one) from the queue, returning it together with the remaining
queue. -/
def popMin : List Event → Option (Event × List Event)
  | [] => none
  | e :: es =>
    match popMin es with
    | none => some (e, [])
    | some (m, rest) =>
      if Event.ltb m e then some (m, e :: rest) else some (e, es)

/-- The loop body of `NextEventScheduler.next`: pop until a
non-cancelled event is found, advance `current_time` to its timestamp
and dispatch it; cancelled events are silently discarded. The `while`
loop of the source is expressed with an explicit fuel equal to the
queue length, which strictly bounds the number of pops. -/
def nextAux : Nat → NextEventScheduler → Option Event × NextEventScheduler
  | 0, s => (none, s)
  | fuel + 1, s =>
    match popMin s.event_queue with
    | none => (none, s)
    | some (ev, rest) =>
      if ev.cancelled then nextAux fuel { s with event_queue := rest }
      else (some ev, { event_queue := rest, current_time := ev.time })

/-- `NextEventScheduler.next`: the event it returns is exactly the one
passed to every interceptor and subscriber handler. -/
def NextEventScheduler.next (s : NextEventScheduler) :
    Option Event × NextEventScheduler :=
  nextAux s.event_queue.length s

/-- Lookup in the `service_rates` dictionary (`self.service_rates[c]`);
`none` models the `KeyError` raised on a missing class. -/
def lookupRate (rates : List (String × ℚ)) (c : String) : Option ℚ :=
  (rates.find? (fun p => p.1 == c)).map Prod.snd

/-- Embedding of `Node` from `simulator/node.py`: `next_departure` is
the `_next_departure` field holding the last valid DEPARTURE event. -/
structure Node where
  name : String
  service_rates : List (String × ℚ)
  jobs : List Job
  last_update : ℚ
  next_departure : Option Event
  deriving DecidableEq, Repr

/-- Python's builtin `max`, specialised to the two-argument form
`max(0.0, x)` used by the source; written as an `if` so that concrete
instances reduce by `decide`. It agrees with the order-theoretic `max`
(see `pymax_eq_max`). -/
def pymax (a b : ℚ) : ℚ := if a ≤ b then b else a

/-- The result of clamping one job after `share` time units of equally
split service. -/
def clampJob (share : ℚ) (j : Job) : Job :=
  { j with remaining_service := pymax 0 (j.remaining_service - share) }

/-- The `for` loop over `self.jobs` of `_update_remaining`, which stops
with a `KeyError` (here `none`) at the first job whose class has no
service-rate entry. -/
def mapOption (f : α → Option β) : List α → Option (List β)
  | [] => some []
  | a :: as =>
    match f a, mapOption f as with
    | some b, some bs => some (b :: bs)
    | _, _ => none

/-- `Node._update_remaining`: with no resident jobs only `last_update`
is set; otherwise every resident job's `remaining_service` is reduced by
`(now − last_update) / N`, clamped at zero (the looked-up rate `mu` is
fetched, as in the source, but unused), and then `last_update := now`. -/
def Node.update_remaining (n : Node) (now : ℚ) : Option Node :=
  if n.jobs = [] then some { n with last_update := now }
  else
    let elapsed := now - n.last_update
    let share := elapsed / (n.jobs.length : ℚ)
    (mapOption (fun job =>
        (lookupRate n.service_rates job.job_class).map (fun _mu => clampJob share job))
      n.jobs).map (fun js => { n with jobs := js, last_update := now })

/-- Python's `min(jobs, key=...)`: the first job attaining the minimal
key, `none` on the empty list (where the source would raise). -/
def pyMinBy (key : Job → ℚ) : List Job → Option Job
  | [] => none
  | j :: js => some (js.foldl (fun acc x => if key x < key acc then x else acc) j)

/-- `Node._schedule_departure`: cancel the pending departure if any,
then — if jobs remain — schedule one DEPARTURE for the job with minimal
`remaining_service` at `current_time + remaining_service_min × N`.
Fresh event ids are threaded through `nid`. -/
def Node.schedule_departure (n : Node) (s : NextEventScheduler) (nid : Nat) :
    Node × NextEventScheduler × Nat :=
  let ns : Node × NextEventScheduler :=
    match n.next_departure with
    | some e => ({ n with next_departure := none }, s.cancel e)
    | none => (n, s)
  match pyMinBy (fun j => j.remaining_service) ns.1.jobs with
  | none => (ns.1, ns.2, nid)
  | some min_job =>
    let ttf := min_job.remaining_service * (ns.1.jobs.length : ℚ)
    let e : Event := ⟨nid, ns.2.current_time + ttf, "DEPARTURE", ns.1.name,
                      some min_job.id, min_job.job_class, false⟩
    ({ ns.1 with next_departure := some e }, ns.2.schedule e 0, nid + 1)

/-- `Node.arrival`: recompute remaining service at the current time,
admit the job, reschedule the departure. -/
def Node.arrival (n : Node) (job : Job) (s : NextEventScheduler) (nid : Nat) :
    Option (Node × NextEventScheduler × Nat) :=
  (n.update_remaining s.current_time).map (fun n1 =>
    Node.schedule_departure { n1 with jobs := n1.jobs ++ [job] } s nid)

/-- `Node.departure`: an event whose job is no longer resident is a
silent no-op; otherwise recompute, remove the job by id, reschedule. -/
def Node.departure (n : Node) (job : Job) (s : NextEventScheduler) (nid : Nat) :
    Option (Node × NextEventScheduler × Nat) :=
  if job ∈ n.jobs then
    (n.update_remaining s.current_time).map (fun n1 =>
      Node.schedule_departure
        { n1 with jobs := n1.jobs.filter (fun j => j.id ≠ job.id) } s nid)
  else some (n, s, nid)

/-- A concrete node for the C2 witness: one resident job with
remaining service `4`, last recomputed at time `0`. -/
def c2Node : Node := ⟨"A", [("c1", 2)], [⟨0, "c1", 0, 4⟩], 0, none⟩

/-- The same node after recomputation at time `4`: the job lost
`4 / 1 = 4` units of remaining service, reaching zero exactly. -/
def c2NodeAfter : Node := ⟨"A", [("c1", 2)], [⟨0, "c1", 0, 0⟩], 4, none⟩

/-- What C1 requires of a node after a membership change at scheduler
time `t` with previously pending departure `pending`, previous queue `q`
and resident set `jobsAfter`: the pending departure's queue entry is
marked cancelled; if the resident set is empty no departure is
scheduled; otherwise exactly one DEPARTURE for a job with minimal
`remaining_service` is appended, firing at
`t + remaining_service_min × N'`. -/
def c1Post (t : ℚ) (pending : Option Event) (q : List Event)
    (jobsAfter : List Job) (n' : Node) (s' : NextEventScheduler) : Prop :=
  (∀ pd, pending = some pd → ∀ x ∈ q, x.id = pd.id →
    { x with cancelled := true } ∈ s'.event_queue) ∧
  (jobsAfter = [] → n'.next_departure = none ∧
    s'.event_queue = (match pending with
      | some pd => cancelQ q pd
      | none => q)) ∧
  (jobsAfter ≠ [] → ∃ e mj, mj ∈ jobsAfter ∧
    (∀ x ∈ jobsAfter, mj.remaining_service ≤ x.remaining_service) ∧
    n'.next_departure = some e ∧ e.event_type = "DEPARTURE" ∧
    e.job_id = some mj.id ∧ e.job_class = mj.job_class ∧ e.cancelled = false ∧
    e.time = t + mj.remaining_service * (jobsAfter.length : ℚ) ∧
    s'.event_queue = (match pending with
      | some pd => cancelQ q pd
      | none => q) ++ [e])

/-- `MODULUS` of `MultiStreamRNG`: the Mersenne prime `2^31 − 1`. -/
def MODULUS : Int := 2147483647

def MULTIPLIER : Int := 48271

def CHECK : Int := 399268537

def STREAMS : Nat := 256

def A256 : Int := 22925

def DEFAULT : Int := 123456789

/-- The state of `MultiStreamRNG`: the selected stream index, the
`initialized` flag, and the 256-entry seed array. -/
structure MultiStreamRNG where
  stream : Nat
  init_done : Bool
  seed : List Int
  deriving DecidableEq, Repr

/-- The three branches of `put_seed` plus the behaviour the spec
demands instead on non-positive seeds. The source produces only the
first three: `direct` for `x > 0` (state becomes `x % m`),
`systemClock` for `x < 0` (state read from `time()`), `userPrompt` for
`x = 0` (state requested interactively on stdin). `raiseError` is never
produced by the code; it is the rejection the specification calls
for. -/
inductive SeedAction where
  | direct (v : Int)
  | systemClock
  | userPrompt
  | raiseError
  deriving DecidableEq, Repr

/-- The branch selection of `MultiStreamRNG.put_seed` on input `x`. -/
def put_seed_action (x : Int) : SeedAction :=
  if x > 0 then SeedAction.direct (x % MODULUS)
  else if x < 0 then SeedAction.systemClock
  else SeedAction.userPrompt

/-- `MultiStreamRNG.put_seed`: only the `x > 0` branch is a pure state
update; the clock and stdin branches are not determined by the program
state and are modelled as `none`. -/
def MultiStreamRNG.put_seed (r : MultiStreamRNG) (x : Int) :
    Option MultiStreamRNG :=
  match put_seed_action x with
  | SeedAction.direct v => some { r with seed := r.seed.set r.stream v }
  | _ => none

/-- `MultiStreamRNG.random(stream)`: one Lehmer step with Schrage's
factoring on the chosen stream; returns the uniform draw and the new
state. -/
def MultiStreamRNG.random (r : MultiStreamRNG) (stream : Nat) :
    ℚ × MultiStreamRNG :=
  let Q := MODULUS / MULTIPLIER
  let R := MODULUS % MULTIPLIER
  let st := stream % STREAMS
  let s := r.seed.getD st 0
  let t := MULTIPLIER * (s % Q) - R * (s / Q)
  let s' := if t > 0 then t else t + MODULUS
  (((s' : ℚ) / ((MODULUS : Int) : ℚ)), { r with seed := r.seed.set st s' })

/-- The `for j in range(1, STREAMS)` loop of `plant_seeds`, deriving
`seed[j]` from `seed[j-1]` with the `A256` jump multiplier; written with
an explicit fuel (`STREAMS − 1` at the call site) so concrete instances
reduce. -/
def plantLoop (seed : List Int) (j : Nat) : Nat → List Int
  | 0 => seed
  | fuel + 1 =>
    if j < STREAMS then
      let Q := MODULUS / A256
      let R := MODULUS % A256
      let prev := seed.getD (j - 1) 0
      let t := A256 * (prev % Q) - R * (prev / Q)
      plantLoop (seed.set j (if t > 0 then t else t + MODULUS)) (j + 1) fuel
    else seed

/-- `MultiStreamRNG.plant_seeds`: set `initialized`, seed stream 0 via
`put_seed` (the embedded `select_stream(0)` cannot recurse because the
selected stream is 0), derive all other streams, restore the previously
selected stream. -/
def MultiStreamRNG.plant_seeds (r : MultiStreamRNG) (x : Int) :
    Option MultiStreamRNG :=
  let r1 := { r with init_done := true }
  let current := r1.stream
  let r2 := { r1 with stream := 0 % STREAMS }
  (r2.put_seed x).map (fun r3 =>
    { r3 with seed := plantLoop r3.seed 1 (STREAMS - 1), stream := current })

/-- `MultiStreamRNG.select_stream`: change the active stream;
a not-yet-initialized generator selecting a non-zero stream first plants
the default seeds. -/
def MultiStreamRNG.select_stream (r : MultiStreamRNG) (index : Nat) :
    Option MultiStreamRNG :=
  let r1 := { r with stream := index % STREAMS }
  if r1.init_done = false ∧ r1.stream ≠ 0 then r1.plant_seeds DEFAULT
  else some r1

/-- `MultiStreamRNG.get_seed`: the current stream's state. -/
def MultiStreamRNG.get_seed (r : MultiStreamRNG) : Int :=
  r.seed.getD r.stream 0

/-- `MultiStreamRNG.__init__` with an explicit seed value: all 256
seeds start at `DEFAULT`, stream 0 selected, then `plant_seeds`. -/
def rng_new (seed_val : Int) : Option MultiStreamRNG :=
  (⟨0, false, List.replicate STREAMS DEFAULT⟩ :
    MultiStreamRNG).plant_seeds seed_val

/-- The scalar Lehmer step on one stream state, exactly the arithmetic
of `MultiStreamRNG.random`. -/
def lehmerStep (s : Int) : Int :=
  let Q := MODULUS / MULTIPLIER
  let R := MODULUS % MULTIPLIER
  let t := MULTIPLIER * (s % Q) - R * (s / Q)
  if t > 0 then t else t + MODULUS

/-- Identity on `Int` by constructor cases; interposed in iterations so
that concrete evaluation is forced step by step instead of building a
deep thunk chain. -/
def forceInt (v : Int) : Int :=
  match v with
  | Int.ofNat m => Int.ofNat m
  | Int.negSucc m => Int.negSucc m

/-- `n`-fold iteration of the scalar Lehmer step. -/
def lehmerIter : Nat → Int → Int
  | 0, s => s
  | k + 1, s => lehmerIter k (forceInt (lehmerStep s))

/-- `n` consecutive `random()` draws (default stream argument 0), as in
the `for` loop of `test_random`; the state is destructured between draws
to keep concrete evaluation shallow, and rebuilt unchanged. -/
def drawN : Nat → MultiStreamRNG → MultiStreamRNG
  | 0, r => r
  | k + 1, r =>
    match (r.random 0).2 with
    | ⟨st, b, s0 :: rest⟩ =>
      match forceInt s0 with
      | Int.ofNat v => drawN k ⟨st, b, Int.ofNat v :: rest⟩
      | Int.negSucc v => drawN k ⟨st, b, Int.negSucc v :: rest⟩
    | ⟨st, b, []⟩ => drawN k ⟨st, b, []⟩

/-- A routing-table entry: either the next `(node, class)` hop or the
`"EXIT"` sentinel. -/
inductive RouteTarget where
  | hop (node : String) (cls : String)
  | exit
  deriving DecidableEq, Repr

/-- Embedding of `Network`: the scheduler reference, the routing matrix
and the node map built from the service-rate table. -/
structure Network where
  scheduler : NextEventScheduler
  routing_matrix : List ((String × String) × RouteTarget)
  nodes : List (String × Node)
  deriving DecidableEq, Repr

/-- `Network.__init__`: nodes are created from the names occurring in
`service_rates`; the routing matrix is stored but never inspected or
validated. -/
def Network.init (scheduler : NextEventScheduler)
    (routing_matrix : List ((String × String) × RouteTarget))
    (service_rates : List ((String × String) × ℚ)) : Network :=
  let names := (service_rates.map (fun p => p.1.1)).dedup
  { scheduler := scheduler
    routing_matrix := routing_matrix
    nodes := names.map (fun n =>
      (n, { name := n
            service_rates := service_rates.filterMap (fun p =>
              if p.1.1 = n then some (p.1.2, p.2) else none)
            jobs := []
            last_update := 0
            next_departure := none })) }

/-- Dictionary lookup in the routing matrix; `none` models the
`KeyError` that `self.routing_matrix[(event.server, event.job_class)]`
raises on a missing pair. -/
def routingLookup (rm : List ((String × String) × RouteTarget))
    (k : String × String) : Option RouteTarget :=
  (rm.find? (fun p => decide (p.1 = k))).map Prod.snd

/-- The routing step of the global `_on_departure` handler
(`simulation.py`): `nxt = self.routing_matrix[(event.server,
event.job_class)]` — a missing entry surfaces here, at simulation time,
as a `KeyError`. -/
def on_departure_route (net : Network) (server cls : String) :
    Except String RouteTarget :=
  match routingLookup net.routing_matrix (server, cls) with
  | some r => Except.ok r
  | none => Except.error "KeyError"

/-- Embedding of `BusyTimeEstimator`'s instance state: the fields
assigned in its `__init__`. -/
structure BusyTimeEstimator where
  pop : Int
  busy : Bool
  last : ℚ
  total : ℚ
  routing_matrix : List ((String × String) × RouteTarget)
  deriving DecidableEq, Repr

/-- `BusyTimeEstimator._on_arr`: only an external ARRIVAL
(`job_id is None`) increments the system population, opening a busy
interval on the 0 → 1 transition. -/
def BusyTimeEstimator.on_arr (b : BusyTimeEstimator) (e : Event) (now : ℚ) :
    BusyTimeEstimator :=
  if e.job_id = none then
    let b1 := if b.pop = 0 then { b with busy := true, last := now } else b
    { b1 with pop := b1.pop + 1 }
  else b

/-- `BusyTimeEstimator._on_dep`: only a DEPARTURE routed to EXIT
decrements the population, closing the busy interval on the 1 → 0
transition. -/
def BusyTimeEstimator.on_dep (b : BusyTimeEstimator) (e : Event) (now : ℚ) :
    BusyTimeEstimator :=
  if routingLookup b.routing_matrix (e.server, e.job_class) =
      some RouteTarget.exit then
    let b1 := { b with pop := b.pop - 1 }
    if b1.pop = 0 ∧ b.busy then
      { b1 with total := b.total + (now - b.last), busy := false }
    else b1
  else b

/-- The attribute names bound on a `BusyTimeEstimator` instance: the
five fields assigned in `__init__` plus the two handler methods defined
in the class body of `estimators.py`. Neither this class, its per-node
subclass `BusyTimeEstimatorNode`, nor `_NodeFilterMixin` defines a
`finalize` attribute anywhere in `estimators.py`. -/
def busyTimeEstimatorAttrs : List String :=
  ["pop", "busy", "last", "total", "routing_matrix", "_on_arr", "_on_dep"]

/-- The run-end finalization step of `Simulation.run`
(`simulation.py`): after the event queue is drained it evaluates
`self.busy.finalize(self.scheduler.current_time)`. Python resolves the
attribute `finalize` on the instance; since the class defines no such
attribute the call raises `AttributeError` instead of closing the busy
interval and returning the metrics. -/
def run_end_finalize (b : BusyTimeEstimator) (now : ℚ) :
    Except String BusyTimeEstimator :=
  if busyTimeEstimatorAttrs.contains "finalize" then Except.ok b
  else Except.error "AttributeError"

theorem popMin_none_iff (l : List Event) : popMin l = none ↔ l = [] := by
  cases l with
  | nil => simp [popMin]
  | cons e es =>
    simp only [popMin]
    cases h : popMin es with
    | none => simp
    | some p =>
      cases p with
      | mk m rest => by_cases hlt : Event.ltb m e <;> simp [hlt]

theorem popMin_mem {l : List Event} {m : Event} {rest : List Event}
    (h : popMin l = some (m, rest)) : m ∈ l := by
  induction l generalizing m rest with
  | nil => simp [popMin] at h
  | cons e es ih =>
    simp only [popMin] at h
    cases hp : popMin es with
    | none => rw [hp] at h; simp at h; simp [h.1]
    | some p =>
      cases p with
      | mk m0 rest0 =>
        rw [hp] at h
        by_cases hlt : Event.ltb m0 e
        · simp [hlt] at h
          rcases h with ⟨h1, _⟩
          exact List.mem_cons_of_mem e (h1 ▸ ih hp)
        · simp [hlt] at h
          simp [h.1]

theorem popMin_rest_subset {l : List Event} {m : Event} {rest : List Event}
    (h : popMin l = some (m, rest)) : ∀ x ∈ rest, x ∈ l := by
  induction l generalizing m rest with
  | nil => simp [popMin] at h
  | cons e es ih =>
    simp only [popMin] at h
    cases hp : popMin es with
    | none => rw [hp] at h; simp at h; simp [h.2]
    | some p =>
      cases p with
      | mk m0 rest0 =>
        rw [hp] at h
        by_cases hlt : Event.ltb m0 e
        · simp [hlt] at h
          rcases h with ⟨_, h2⟩
          intro x hx
          rw [← h2] at hx
          rcases List.mem_cons.mp hx with h3 | h3
          · simp [h3]
          · exact List.mem_cons_of_mem e (ih hp x h3)
        · simp [hlt] at h
          intro x hx
          exact List.mem_cons_of_mem e (h.2 ▸ hx)

/-- The `(time, id)` comparison of `Event.__lt__`, spelled out as a
proposition. -/
theorem Event.ltb_iff (a b : Event) :
    Event.ltb a b = true ↔ (a.time < b.time ∨ (a.time = b.time ∧ a.id < b.id)) := by
  unfold Event.ltb
  by_cases ht : a.time = b.time
  · simp [ht]
  · simp [ht]

theorem Event.ltb_irrefl (a : Event) : Event.ltb a a = false := by
  unfold Event.ltb
  simp

theorem Event.ltb_asymm {a b : Event} (h : Event.ltb a b = true) :
    Event.ltb b a = false := by
  rw [Event.ltb_iff] at h
  cases hx : Event.ltb b a with
  | false => rfl
  | true =>
    exfalso
    rw [Event.ltb_iff] at hx
    rcases h with h | ⟨h1, h2⟩ <;> rcases hx with hx | ⟨hx1, hx2⟩
    · exact absurd hx (not_lt.mpr (le_of_lt h))
    · exact absurd h (by simp [hx1])
    · exact absurd hx (by simp [h1])
    · exact Nat.lt_asymm h2 hx2

/-- Failure of strict `(time, id)` comparison is transitive: if `a ≤ b`
and `b ≤ c` in the total order then `c < a` is impossible. -/
theorem Event.ltb_false_trans {a b c : Event}
    (h1 : Event.ltb b a = false) (h2 : Event.ltb c b = false) :
    Event.ltb c a = false := by
  cases hx : Event.ltb c a with
  | false => rfl
  | true =>
    exfalso
    have h1' : ¬ (b.time < a.time ∨ (b.time = a.time ∧ b.id < a.id)) := by
      rw [← Event.ltb_iff]; simp [h1]
    have h2' : ¬ (c.time < b.time ∨ (c.time = b.time ∧ c.id < b.id)) := by
      rw [← Event.ltb_iff]; simp [h2]
    have hx' := (Event.ltb_iff c a).mp hx
    push_neg at h1' h2'
    rcases h1' with ⟨hab, hid_ab⟩
    rcases h2' with ⟨hbc, hid_bc⟩
    have hab' : a.time ≤ b.time := hab
    have hbc' : b.time ≤ c.time := hbc
    rcases hx' with hx' | ⟨hteq, hid⟩
    · exact absurd hx' (not_lt.mpr (le_trans hab' hbc'))
    · have h1t : a.time = b.time := le_antisymm hab' (hteq ▸ hbc')
      have h2t : b.time = c.time := le_antisymm hbc' (le_of_eq (hteq.trans h1t))
      have hba : a.id ≤ b.id := hid_ab h1t.symm
      have hcb : b.id ≤ c.id := hid_bc h2t.symm
      exact absurd hid (Nat.not_lt.mpr (le_trans hba hcb))

/-- The element returned by `popMin` has no strictly smaller element in
the queue (it is the `heapq` minimum). -/
theorem popMin_minimal {l : List Event} {m : Event} {rest : List Event}
    (h : popMin l = some (m, rest)) : ∀ x ∈ l, Event.ltb x m = false := by
  induction l generalizing m rest with
  | nil => simp [popMin] at h
  | cons e es ih =>
    simp only [popMin] at h
    cases hp : popMin es with
    | none =>
      rw [hp] at h; simp at h
      have hes : es = [] := (popMin_none_iff es).mp hp
      intro x hx
      rw [hes] at hx
      simp at hx
      subst hx
      rw [← h.1]
      exact Event.ltb_irrefl x
    | some p =>
      cases p with
      | mk m0 rest0 =>
        rw [hp] at h
        by_cases hlt : Event.ltb m0 e
        · simp [hlt] at h
          rcases h with ⟨h1, _⟩
          subst h1
          intro x hx
          rcases List.mem_cons.mp hx with h3 | h3
          · subst h3
            exact Event.ltb_asymm hlt
          · exact ih hp x h3
        · simp [hlt] at h
          rcases h with ⟨h1, _⟩
          subst h1
          intro x hx
          rcases List.mem_cons.mp hx with h3 | h3
          · subst h3
            exact Event.ltb_irrefl x
          · have hb : Event.ltb m0 e = false := by
              cases hz : Event.ltb m0 e with
              | false => rfl
              | true => exact absurd hz hlt
            exact Event.ltb_false_trans hb (ih hp x h3)

theorem popMin_length {l : List Event} {m : Event} {rest : List Event}
    (h : popMin l = some (m, rest)) : rest.length + 1 = l.length := by
  induction l generalizing m rest with
  | nil => simp [popMin] at h
  | cons e es ih =>
    simp only [popMin] at h
    cases hp : popMin es with
    | none =>
      rw [hp] at h; simp at h
      have hes : es = [] := (popMin_none_iff es).mp hp
      simp [h.2, hes]
    | some p =>
      cases p with
      | mk m0 rest0 =>
        rw [hp] at h
        by_cases hlt : Event.ltb m0 e
        · simp [hlt] at h
          rw [← h.2]
          simp [← ih hp]
        · simp [hlt] at h
          rw [← h.2]
          simp

theorem popMin_mem_rest {l : List Event} {m : Event} {rest : List Event}
    (h : popMin l = some (m, rest)) : ∀ x ∈ l, x ≠ m → x ∈ rest := by
  induction l generalizing m rest with
  | nil => simp [popMin] at h
  | cons e es ih =>
    simp only [popMin] at h
    cases hp : popMin es with
    | none =>
      rw [hp] at h; simp at h
      have hes : es = [] := (popMin_none_iff es).mp hp
      intro x hx hne
      rw [hes] at hx
      simp at hx
      exact absurd (hx.trans h.1) hne
    | some p =>
      cases p with
      | mk m0 rest0 =>
        rw [hp] at h
        by_cases hlt : Event.ltb m0 e
        · simp [hlt] at h
          rcases h with ⟨h1, h2⟩
          intro x hx hne
          rw [← h2]
          rcases List.mem_cons.mp hx with h3 | h3
          · simp [h3]
          · exact List.mem_cons_of_mem e (ih hp x h3 (fun hh => hne (hh.trans h1)))
        · simp [hlt] at h
          rcases h with ⟨h1, h2⟩
          intro x hx hne
          rw [← h2]
          rcases List.mem_cons.mp hx with h3 | h3
          · exact absurd (h3.trans h1) hne
          · exact h3

theorem nextAux_spec : ∀ (fuel : Nat) (s : NextEventScheduler),
    s.event_queue.length ≤ fuel → ∀ ev s', nextAux fuel s = (some ev, s') →
    ev ∈ s.event_queue ∧ ev.cancelled = false ∧
      ∀ x ∈ s.event_queue, x.cancelled = false → Event.ltb x ev = false := by
  intro fuel
  induction fuel with
  | zero => intro s _ ev s' h; simp [nextAux] at h
  | succ n ih =>
    intro s hlen ev s' h
    simp only [nextAux] at h
    cases hp : popMin s.event_queue with
    | none => rw [hp] at h; simp at h
    | some p =>
      cases p with
      | mk m rest =>
        rw [hp] at h
        by_cases hc : m.cancelled
        · simp [hc] at h
          have hrest : rest.length ≤ n := by
            have := popMin_length hp
            omega
          have hspec := ih { s with event_queue := rest } hrest ev s' h
          refine ⟨popMin_rest_subset hp ev hspec.1, hspec.2.1, ?_⟩
          intro x hx hxc
          have hxm : x ≠ m := by
            intro hh
            rw [hh] at hxc
            rw [hxc] at hc
            exact Bool.noConfusion hc
          exact hspec.2.2 x (popMin_mem_rest hp x hx hxm) hxc
        · simp [hc] at h
          rcases h with ⟨h1, _⟩
          subst h1
          refine ⟨popMin_mem hp, by simp [hc], ?_⟩
          intro x hx _
          exact popMin_minimal hp x hx

/-- Every fact `nextAux_spec` gives, lifted to `next`. -/
theorem next_spec (s : NextEventScheduler) (ev : Event)
    (s' : NextEventScheduler) (h : s.next = (some ev, s')) :
    ev ∈ s.event_queue ∧ ev.cancelled = false ∧
      ∀ x ∈ s.event_queue, x.cancelled = false → Event.ltb x ev = false :=
  nextAux_spec s.event_queue.length s (le_refl _) ev s' h

/-- C6: two events scheduled with equal time are dispatched by `next()`
in creation (id) order — the dispatched event is `(time, id)`-minimal,
so a same-time event with a smaller id and not cancelled is never
overtaken; an event whose `cancelled` flag is set is never passed to any
interceptor or subscriber handler (the dispatched event is always
non-cancelled); and `has_next()` returns `false` if and only if every
event remaining in the queue is cancelled. -/
theorem claim_C6_scheduler_dispatch (s : NextEventScheduler) :
    (∀ e₁ e₂ : Event, e₁ ∈ s.event_queue → e₂ ∈ s.event_queue →
      e₁.cancelled = false → e₁.time = e₂.time → e₁.id < e₂.id →
      (s.next).1 ≠ some e₂) ∧
    (∀ ev s', s.next = (some ev, s') → ev.cancelled = false) ∧
    (s.has_next = false ↔ ∀ e ∈ s.event_queue, e.cancelled = true) := by
  refine ⟨?_, ?_, ?_⟩
  · intro e₁ e₂ h1 _ hc ht hid hne
    have hpair : s.next = (some e₂, (s.next).2) := by
      rw [← hne]
    have hspec := next_spec s e₂ (s.next).2 hpair
    have hmin := hspec.2.2 e₁ h1 hc
    have : Event.ltb e₁ e₂ = true :=
      (Event.ltb_iff e₁ e₂).mpr (Or.inr ⟨ht, hid⟩)
    rw [this] at hmin
    exact Bool.noConfusion hmin
  · intro ev s' h
    exact (next_spec s ev s' h).2.1
  · unfold NextEventScheduler.has_next
    rw [List.any_eq_false]
    constructor
    · intro h e he
      have := h e he
      simp at this
      exact this
    · intro h e he
      simp [h e he]

/-- Witness for C6 on a concrete queue: two live events at time `1`
with ids `0 < 1` and one cancelled event at time `0`; `next` never
dispatches the id-`1` event first, the dispatched event is not
cancelled, and `has_next` reflects the presence of live events. -/
theorem claim_C6_scheduler_dispatch_witness :
    ((⟨[⟨0, 1, "DEPARTURE", "A", none, "c1", false⟩,
        ⟨1, 1, "DEPARTURE", "A", none, "c1", false⟩,
        ⟨2, 0, "ARRIVAL", "A", none, "c1", true⟩], 0⟩ :
        NextEventScheduler).next).1 ≠
      some ⟨1, 1, "DEPARTURE", "A", none, "c1", false⟩ ∧
    (⟨0, 1, "DEPARTURE", "A", none, "c1", false⟩ : Event).cancelled = false ∧
    ((⟨[⟨0, 1, "DEPARTURE", "A", none, "c1", false⟩,
        ⟨1, 1, "DEPARTURE", "A", none, "c1", false⟩,
        ⟨2, 0, "ARRIVAL", "A", none, "c1", true⟩], 0⟩ :
        NextEventScheduler).has_next = false ↔
      ∀ e ∈ [(⟨0, 1, "DEPARTURE", "A", none, "c1", false⟩ : Event),
             ⟨1, 1, "DEPARTURE", "A", none, "c1", false⟩,
             ⟨2, 0, "ARRIVAL", "A", none, "c1", true⟩], e.cancelled = true) := by
  have h := claim_C6_scheduler_dispatch
    ⟨[⟨0, 1, "DEPARTURE", "A", none, "c1", false⟩,
      ⟨1, 1, "DEPARTURE", "A", none, "c1", false⟩,
      ⟨2, 0, "ARRIVAL", "A", none, "c1", true⟩], 0⟩
  refine ⟨h.1 ⟨0, 1, "DEPARTURE", "A", none, "c1", false⟩
      ⟨1, 1, "DEPARTURE", "A", none, "c1", false⟩
      (by decide) (by decide) (by decide) (by decide) (by decide), ?_, h.2.2⟩
  exact h.2.1 ⟨0, 1, "DEPARTURE", "A", none, "c1", false⟩
    ⟨[⟨1, 1, "DEPARTURE", "A", none, "c1", false⟩], 1⟩ (by decide)

/-- C10: cancelling an event that is not currently contained in the
scheduler's queue (identified by its globally unique id) is a no-op:
the scheduler state is unchanged, so no queued event is marked
cancelled. -/
theorem claim_C10_cancel_noop (s : NextEventScheduler) (e : Event)
    (h : ∀ x ∈ s.event_queue, x.id ≠ e.id) : s.cancel e = s := by
  unfold NextEventScheduler.cancel cancelQ
  rw [if_neg]
  · intro hc
    rw [List.contains_eq_any_beq] at hc
    simp only [List.any_eq_true] at hc
    rcases hc with ⟨i, hi, hbeq⟩
    rcases List.mem_map.mp hi with ⟨x, hx, hxi⟩
    have heq : e.id = i := by simpa using hbeq
    exact h x hx (hxi.trans heq.symm)

/-- Witness for C10: cancelling an event whose id is absent from the
queue leaves a concrete scheduler untouched. -/
theorem claim_C10_cancel_noop_witness :
    (⟨[⟨1, 2, "ARRIVAL", "A", none, "c1", false⟩], 5⟩ :
      NextEventScheduler).cancel ⟨7, 3, "DEPARTURE", "B", none, "c1", false⟩ =
    ⟨[⟨1, 2, "ARRIVAL", "A", none, "c1", false⟩], 5⟩ :=
  claim_C10_cancel_noop _ _ (by decide)

theorem pymax_eq_max (a b : ℚ) : pymax a b = max a b := by
  unfold pymax
  by_cases he : a ≤ b
  · simp [he, max_eq_right he]
  · have h : b ≤ a := le_of_not_le he
    simp [he, max_eq_left h]

theorem mapOption_forall2 {f : α → Option β} :
    ∀ {l : List α} {l' : List β}, mapOption f l = some l' →
    List.Forall₂ (fun a b => f a = some b) l l' := by
  intro l
  induction l with
  | nil => intro l' h; simp [mapOption] at h; simp [← h]
  | cons a as ih =>
    intro l' h
    simp only [mapOption] at h
    cases hfa : f a with
    | none => rw [hfa] at h; simp at h
    | some b =>
      cases hmo : mapOption f as with
      | none => rw [hfa, hmo] at h; simp at h
      | some bs =>
        rw [hfa, hmo] at h
        simp at h
        rw [← h]
        exact List.Forall₂.cons hfa (ih hmo)

theorem update_remaining_empty {n : Node} {t : ℚ} (he : n.jobs = []) :
    n.update_remaining t = some { n with last_update := t } := by
  unfold Node.update_remaining
  rw [if_pos he]

/-- What `_update_remaining` does on a non-empty resident set: all
fields but `jobs` and `last_update` are untouched, and the new job list
is the pointwise clamp of the old one. -/
theorem update_remaining_some {n : Node} {t : ℚ} {n' : Node}
    (hne : n.jobs ≠ []) (h : n.update_remaining t = some n') :
    n'.name = n.name ∧ n'.service_rates = n.service_rates ∧
    n'.last_update = t ∧ n'.next_departure = n.next_departure ∧
    List.Forall₂ (fun a b : Job =>
      b = clampJob ((t - n.last_update) / (n.jobs.length : ℚ)) a)
      n.jobs n'.jobs := by
  unfold Node.update_remaining at h
  rw [if_neg hne] at h
  rcases Option.map_eq_some'.mp h with ⟨js, hjs, hn'⟩
  rw [← hn']
  refine ⟨rfl, rfl, rfl, rfl, ?_⟩
  refine (mapOption_forall2 hjs).imp ?_
  intro a b hab
  rcases Option.map_eq_some'.mp hab with ⟨mu, _, hb⟩
  exact hb.symm

/-- C2: for a node holding `N ≥ 1` jobs, the recompute step at time
`t ≥ last_update` reduces every resident job's `remaining_service` by
exactly `(t − last_update) / N`, clamping each result at zero, and then
sets `last_update := t`; with no resident jobs only `last_update` is
set. -/
theorem claim_C2_recompute (n : Node) (t : ℚ) (n' : Node)
    (hle : n.last_update ≤ t) (h : n.update_remaining t = some n') :
    (n.jobs = [] → n' = { n with last_update := t }) ∧
    (n.jobs ≠ [] → n'.last_update = t ∧
      List.Forall₂ (fun a b : Job =>
        b = clampJob ((t - n.last_update) / (n.jobs.length : ℚ)) a)
        n.jobs n'.jobs) := by
  constructor
  · intro he
    rw [update_remaining_empty he] at h
    exact (Option.some_inj.mp h).symm
  · intro hne
    have hs := update_remaining_some hne h
    exact ⟨hs.2.2.1, hs.2.2.2.2⟩

/-- Witness for C2 at a concrete node. -/
theorem claim_C2_recompute_witness :
    (c2Node.jobs = [] → c2NodeAfter = { c2Node with last_update := 4 }) ∧
    (c2Node.jobs ≠ [] → c2NodeAfter.last_update = 4 ∧
      List.Forall₂ (fun a b : Job =>
        b = clampJob (((4 : ℚ) - c2Node.last_update) / (c2Node.jobs.length : ℚ)) a)
        c2Node.jobs c2NodeAfter.jobs) :=
  claim_C2_recompute c2Node 4 c2NodeAfter (by simp [c2Node])
    (by simp [c2Node, c2NodeAfter, Node.update_remaining, mapOption,
          lookupRate, clampJob, pymax])

theorem clamp_sum_aux (share : ℚ) (hs : 0 ≤ share) {l l' : List Job}
    (hf : List.Forall₂ (fun a b : Job => b = clampJob share a) l l')
    (hnn : ∀ j ∈ l, 0 ≤ j.remaining_service) :
    ((l'.map Job.remaining_service).sum ≤ (l.map Job.remaining_service).sum) ∧
    (∀ j ∈ l', 0 ≤ j.remaining_service) := by
  induction hf with
  | nil => simp
  | @cons a b as bs hab _ ih =>
    have hnn_a : 0 ≤ a.remaining_service := hnn a (by simp)
    have hnn_tail : ∀ j ∈ as, 0 ≤ j.remaining_service :=
      fun j hj => hnn j (by simp [hj])
    obtain ⟨ih1, ih2⟩ := ih hnn_tail
    constructor
    · simp only [List.map_cons, List.sum_cons, hab, clampJob, pymax_eq_max]
      exact add_le_add (max_le hnn_a (sub_le_self _ hs)) ih1
    · intro j hj
      rcases List.mem_cons.mp hj with h1 | h1
      · rw [h1, hab]
        simp only [clampJob, pymax_eq_max]
        exact le_max_left 0 _
      · exact ih2 j h1

/-- C8: over one recomputation at a later time, the total
`remaining_service` of the resident jobs does not increase, and no job's
`remaining_service` becomes negative. -/
theorem claim_C8_ps_conservation (n : Node) (t : ℚ) (n' : Node)
    (hle : n.last_update ≤ t)
    (hnn : ∀ j ∈ n.jobs, 0 ≤ j.remaining_service)
    (h : n.update_remaining t = some n') :
    ((n'.jobs.map Job.remaining_service).sum ≤
      (n.jobs.map Job.remaining_service).sum) ∧
    (∀ j ∈ n'.jobs, 0 ≤ j.remaining_service) := by
  by_cases he : n.jobs = []
  · rw [update_remaining_empty he] at h
    rw [← Option.some_inj.mp h]
    simp [he]
  · have hs := update_remaining_some he h
    have hshare : 0 ≤ (t - n.last_update) / (n.jobs.length : ℚ) :=
      div_nonneg (sub_nonneg.mpr hle) (Nat.cast_nonneg _)
    exact clamp_sum_aux _ hshare hs.2.2.2.2 hnn

/-- Witness for C8: a job with remaining `4`, recomputed `4` units
later, is clamped to zero: the total shrinks from `4` to `0` and stays
non-negative. -/
theorem claim_C8_ps_conservation_witness :
    (((⟨"A", [("c1", 2)], [⟨0, "c1", 0, 0⟩], 4, none⟩ :
        Node).jobs.map Job.remaining_service).sum ≤
      (([⟨0, "c1", 0, 4⟩] : List Job).map Job.remaining_service).sum) ∧
    (∀ j ∈ (⟨"A", [("c1", 2)], [⟨0, "c1", 0, 0⟩], 4, none⟩ :
        Node).jobs, 0 ≤ j.remaining_service) :=
  claim_C8_ps_conservation
    ⟨"A", [("c1", 2)], [⟨0, "c1", 0, 4⟩], 0, none⟩ 4
    ⟨"A", [("c1", 2)], [⟨0, "c1", 0, 0⟩], 4, none⟩
    (by simp) (by decide)
    (by simp [Node.update_remaining, mapOption, lookupRate, clampJob, pymax])

theorem foldl_min_choice (key : Job → ℚ) (js : List Job) (a : Job) :
    js.foldl (fun acc x => if key x < key acc then x else acc) a = a ∨
    js.foldl (fun acc x => if key x < key acc then x else acc) a ∈ js := by
  induction js generalizing a with
  | nil => simp
  | cons x xs ih =>
    simp only [List.foldl_cons]
    rcases ih (if key x < key a then x else a) with h | h
    · rw [h]
      by_cases hx : key x < key a
      · right
        simp [hx]
      · left
        simp [hx]
    · right
      exact List.mem_cons_of_mem x h

theorem foldl_min_le (key : Job → ℚ) (js : List Job) (a : Job) :
    key (js.foldl (fun acc x => if key x < key acc then x else acc) a) ≤ key a ∧
    ∀ x ∈ js,
      key (js.foldl (fun acc x => if key x < key acc then x else acc) a) ≤ key x := by
  induction js generalizing a with
  | nil => simp
  | cons x xs ih =>
    simp only [List.foldl_cons]
    obtain ⟨ih1, ih2⟩ := ih (if key x < key a then x else a)
    constructor
    · by_cases hx : key x < key a
      · exact le_trans (by simpa [hx] using ih1) (le_of_lt hx)
      · simpa [hx] using ih1
    · intro y hy
      rcases List.mem_cons.mp hy with h | h
      · subst h
        by_cases hx : key y < key a
        · simpa [hx] using ih1
        · exact le_trans (by simpa [hx] using ih1) (le_of_not_lt hx)
      · exact ih2 y h

/-- Python's `min(jobs, key=...)` returns a resident job whose key is
minimal. -/
theorem pyMinBy_some {key : Job → ℚ} {l : List Job} {m : Job}
    (h : pyMinBy key l = some m) : m ∈ l ∧ ∀ x ∈ l, key m ≤ key x := by
  cases l with
  | nil => simp [pyMinBy] at h
  | cons j js =>
    simp only [pyMinBy, Option.some_inj] at h
    subst h
    obtain ⟨h1, h2⟩ := foldl_min_le key js j
    constructor
    · rcases foldl_min_choice key js j with h | h
      · rw [h]; simp
      · exact List.mem_cons_of_mem j h
    · intro x hx
      rcases List.mem_cons.mp hx with h | h
      · rw [h]; exact h1
      · exact h2 x h

theorem pyMinBy_none_iff {key : Job → ℚ} {l : List Job} :
    pyMinBy key l = none ↔ l = [] := by
  cases l <;> simp [pyMinBy]

/-- Marking a queued event by id really puts its cancelled copy in the
queue transformed by `cancel`. -/
theorem cancelQ_marks {q : List Event} {pd x : Event}
    (hx : x ∈ q) (hid : x.id = pd.id) :
    { x with cancelled := true } ∈ cancelQ q pd := by
  unfold cancelQ
  have hmem : pd.id ∈ q.map Event.id := List.mem_map.mpr ⟨x, hx, hid⟩
  have hc : (q.map Event.id).contains pd.id = true := by
    simpa using hmem
  rw [if_pos hc]
  refine List.mem_map.mpr ⟨x, hx, ?_⟩
  rw [if_pos hid]

theorem schedule_zero (s : NextEventScheduler) (e : Event) :
    s.schedule e 0 = { s with event_queue := s.event_queue ++ [e] } := by
  unfold NextEventScheduler.schedule
  norm_num

/-- `_schedule_departure` satisfies the C1 contract relative to the
node's state at entry. -/
theorem schedule_departure_post (m : Node) (s : NextEventScheduler) (nid : Nat) :
    c1Post s.current_time m.next_departure s.event_queue
      (m.schedule_departure s nid).1.jobs
      (m.schedule_departure s nid).1 (m.schedule_departure s nid).2.1 := by
  unfold Node.schedule_departure
  cases hpd : m.next_departure with
  | none =>
    cases hmin : pyMinBy (fun j => j.remaining_service) m.jobs with
    | none =>
      have hjobs : m.jobs = [] := pyMinBy_none_iff.mp hmin
      simp only [hmin]
      refine ⟨?_, ?_, ?_⟩
      · intro pd hpd'
        exact Option.noConfusion hpd'
      · intro _
        exact ⟨hpd, rfl⟩
      · intro hne
        exact absurd hjobs hne
    | some mj =>
      obtain ⟨hmem, hle⟩ := pyMinBy_some hmin
      simp only [hmin]
      refine ⟨?_, ?_, ?_⟩
      · intro pd hpd'
        exact Option.noConfusion hpd'
      · intro hempty
        rw [hempty] at hmem
        exact absurd hmem (List.not_mem_nil mj)
      · intro _
        refine ⟨_, mj, hmem, hle, rfl, rfl, rfl, rfl, rfl, rfl, ?_⟩
        rw [schedule_zero]
  | some pd =>
    cases hmin : pyMinBy (fun j => j.remaining_service) m.jobs with
    | none =>
      have hjobs : m.jobs = [] := pyMinBy_none_iff.mp hmin
      simp only [hmin]
      refine ⟨?_, ?_, ?_⟩
      · intro pd' hpd' x hx hid
        have : pd = pd' := Option.some_inj.mp hpd'
        exact cancelQ_marks hx (this ▸ hid)
      · intro _
        exact ⟨rfl, rfl⟩
      · intro hne
        exact absurd hjobs hne
    | some mj =>
      obtain ⟨hmem, hle⟩ := pyMinBy_some hmin
      simp only [hmin]
      refine ⟨?_, ?_, ?_⟩
      · intro pd' hpd' x hx hid
        have hpp : pd = pd' := Option.some_inj.mp hpd'
        rw [schedule_zero]
        exact List.mem_append_left _ (cancelQ_marks hx (hpp ▸ hid))
      · intro hempty
        rw [hempty] at hmem
        exact absurd hmem (List.not_mem_nil mj)
      · intro _
        refine ⟨_, mj, hmem, hle, rfl, rfl, rfl, rfl, rfl, rfl, ?_⟩
        rw [schedule_zero]
        rfl

theorem update_remaining_preserves {n : Node} {t : ℚ} {n1 : Node}
    (h : n.update_remaining t = some n1) :
    n1.name = n.name ∧ n1.service_rates = n.service_rates ∧
    n1.next_departure = n.next_departure := by
  by_cases he : n.jobs = []
  · rw [update_remaining_empty he] at h
    rw [← Option.some_inj.mp h]
    exact ⟨rfl, rfl, rfl⟩
  · have hs := update_remaining_some he h
    exact ⟨hs.1, hs.2.1, hs.2.2.2.1⟩

/-- C1: on every membership-changing event handled at scheduler time
`t` (arrival, or departure of a resident job), the node first cancels
any previously scheduled pending-departure event (its queue entry is
marked cancelled) and then, if the resident set is non-empty after the
change, schedules exactly one new DEPARTURE — for a job with minimal
`remaining_service` — at `t + remaining_service_min × N'`, where `N'`
is the resident count after the change; if the resident set is empty no
departure is scheduled. -/
theorem claim_C1_membership_reschedule (n : Node) (job : Job)
    (s : NextEventScheduler) (nid : Nat) :
    (∀ n' s' nid', n.arrival job s nid = some (n', s', nid') →
      c1Post s.current_time n.next_departure s.event_queue n'.jobs n' s') ∧
    (job ∈ n.jobs → ∀ n' s' nid', n.departure job s nid = some (n', s', nid') →
      c1Post s.current_time n.next_departure s.event_queue n'.jobs n' s') := by
  constructor
  · intro n' s' nid' h
    unfold Node.arrival at h
    rcases Option.map_eq_some'.mp h with ⟨n1, hup, heq⟩
    have hpost := schedule_departure_post
      { n1 with jobs := n1.jobs ++ [job] } s nid
    rw [heq] at hpost
    have hpost' : c1Post s.current_time n1.next_departure s.event_queue
        n'.jobs n' s' := hpost
    rw [(update_remaining_preserves hup).2.2] at hpost'
    exact hpost'
  · intro hmem n' s' nid' h
    unfold Node.departure at h
    rw [if_pos hmem] at h
    rcases Option.map_eq_some'.mp h with ⟨n1, hup, heq⟩
    have hpost := schedule_departure_post
      { n1 with jobs := n1.jobs.filter (fun j => j.id ≠ job.id) } s nid
    rw [heq] at hpost
    have hpost' : c1Post s.current_time n1.next_departure s.event_queue
        n'.jobs n' s' := hpost
    rw [(update_remaining_preserves hup).2.2] at hpost'
    exact hpost'

/-- Witness for C1: an arrival into an idle concrete node schedules
exactly one DEPARTURE at `0 + 5 × 1`, and a departure emptying a
one-job node schedules nothing. -/
theorem claim_C1_membership_reschedule_witness :
    c1Post 0 none [] [⟨0, "c1", 0, 5⟩]
      ⟨"A", [("c1", 2)], [⟨0, "c1", 0, 5⟩], 0,
        some ⟨0, 5, "DEPARTURE", "A", some 0, "c1", false⟩⟩
      ⟨[⟨0, 5, "DEPARTURE", "A", some 0, "c1", false⟩], 0⟩ ∧
    c1Post 0 none [] []
      ⟨"A", [("c1", 2)], [], 0, none⟩ ⟨[], 0⟩ := by
  constructor
  · exact (claim_C1_membership_reschedule
      ⟨"A", [("c1", 2)], [], 0, none⟩ ⟨0, "c1", 0, 5⟩ ⟨[], 0⟩ 0).1
      ⟨"A", [("c1", 2)], [⟨0, "c1", 0, 5⟩], 0,
        some ⟨0, 5, "DEPARTURE", "A", some 0, "c1", false⟩⟩
      ⟨[⟨0, 5, "DEPARTURE", "A", some 0, "c1", false⟩], 0⟩ 1
      (by simp [Node.arrival, Node.update_remaining, Node.schedule_departure,
            pyMinBy, NextEventScheduler.schedule])
  · exact (claim_C1_membership_reschedule
      ⟨"A", [("c1", 2)], [⟨0, "c1", 0, 5⟩], 0, none⟩ ⟨0, "c1", 0, 5⟩
      ⟨[], 0⟩ 0).2 (by decide)
      ⟨"A", [("c1", 2)], [], 0, none⟩ ⟨[], 0⟩ 0
      (by simp [Node.departure, Node.update_remaining, Node.schedule_departure,
            mapOption, lookupRate, clampJob, pymax, pyMinBy])

/-- C9: a DEPARTURE whose job is no longer resident at the node is a
silent no-op — the handler returns without raising (`some`) and leaves
the node, the scheduler and the id counter unchanged. -/
theorem claim_C9_orphan_departure (n : Node) (job : Job)
    (s : NextEventScheduler) (nid : Nat) (h : job ∉ n.jobs) :
    n.departure job s nid = some (n, s, nid) := by
  unfold Node.departure
  rw [if_neg h]

/-- Witness for C9: a departure for a job absent from a concrete node's
resident set changes nothing. -/
theorem claim_C9_orphan_departure_witness :
    (⟨"A", [("c1", 2)], [⟨0, "c1", 0, 5⟩], 0, none⟩ : Node).departure
      ⟨3, "c1", 1, 7⟩ ⟨[], 2⟩ 4 =
    some (⟨"A", [("c1", 2)], [⟨0, "c1", 0, 5⟩], 0, none⟩, ⟨[], 2⟩, 4) :=
  claim_C9_orphan_departure _ _ _ _ (by decide)

/-- C7 counterexample: at the concrete seed `-1` the generator falls
back to the system clock, and at `0` it prompts the user interactively;
neither branch is the rejection-with-an-error the claim asserts. -/
theorem claim_C7_seed_rejection_counterexample :
    put_seed_action (-1) = SeedAction.systemClock ∧
    put_seed_action 0 = SeedAction.userPrompt ∧
    SeedAction.systemClock ≠ SeedAction.raiseError ∧
    SeedAction.userPrompt ≠ SeedAction.raiseError := by
  decide

/-- C7 amended: a positive seed `x` is stored directly as `x % m` (so a
seed in `[1, m−1]` is used unchanged as the stream state); a negative
seed falls back to the system clock and a zero seed triggers an
interactive prompt — no seed value is rejected with an error. -/
theorem claim_C7_seed_conventions (x : Int) (r : MultiStreamRNG) :
    (0 < x →
      put_seed_action x = SeedAction.direct (x % MODULUS) ∧
      r.put_seed x = some { r with seed := r.seed.set r.stream (x % MODULUS) }) ∧
    (0 < x → x < MODULUS → put_seed_action x = SeedAction.direct x) ∧
    (x < 0 → put_seed_action x = SeedAction.systemClock) ∧
    (x = 0 → put_seed_action x = SeedAction.userPrompt) ∧
    put_seed_action x ≠ SeedAction.raiseError := by
  refine ⟨?_, ?_, ?_, ?_, ?_⟩
  · intro hx
    constructor
    · unfold put_seed_action
      rw [if_pos hx]
    · unfold MultiStreamRNG.put_seed put_seed_action
      rw [if_pos hx]
  · intro hx hlt
    unfold put_seed_action
    rw [if_pos hx, Int.emod_eq_of_lt (le_of_lt hx) hlt]
  · intro hx
    unfold put_seed_action
    rw [if_neg (not_lt.mpr (le_of_lt hx)), if_pos hx]
  · intro hx
    subst hx
    unfold put_seed_action
    norm_num
  · unfold put_seed_action
    by_cases h1 : x > 0
    · rw [if_pos h1]
      exact fun hh => SeedAction.noConfusion hh
    · rw [if_neg h1]
      by_cases h2 : x < 0
      · rw [if_pos h2]
        exact fun hh => SeedAction.noConfusion hh
      · rw [if_neg h2]
        exact fun hh => SeedAction.noConfusion hh

/-- Witness for C7 (amended) at seeds `5`, `-7` and `0` on a concrete
one-stream state. -/
theorem claim_C7_seed_conventions_witness :
    (put_seed_action 5 = SeedAction.direct ((5 : Int) % MODULUS) ∧
      (⟨0, true, [9]⟩ : MultiStreamRNG).put_seed 5 =
        some { (⟨0, true, [9]⟩ : MultiStreamRNG) with
                 seed := ([9] : List Int).set 0 ((5 : Int) % MODULUS) }) ∧
    put_seed_action (-7) = SeedAction.systemClock ∧
    put_seed_action 0 = SeedAction.userPrompt := by
  refine ⟨(claim_C7_seed_conventions 5 ⟨0, true, [9]⟩).1 (by decide), ?_, ?_⟩
  · exact (claim_C7_seed_conventions (-7) ⟨0, true, [9]⟩).2.2.1 (by decide)
  · exact (claim_C7_seed_conventions 0 ⟨0, true, [9]⟩).2.2.2.1 rfl

theorem forceInt_eq (v : Int) : forceInt v = v := by
  cases v <;> rfl

/-- The Lehmer generator state never leaves `(0, m)`, hence never hits
a multiple of the modulus. -/
theorem modulus_not_dvd {s : Int} (h1 : 0 < s) (h2 : s < MODULUS) :
    ¬ MODULUS ∣ MULTIPLIER * s := by
  intro hdvd
  have hcop : IsCoprime (MODULUS : ℤ) MULTIPLIER :=
    Int.gcd_eq_one_iff_coprime.mp (by decide)
  have hdvds : MODULUS ∣ s := hcop.dvd_of_dvd_mul_left hdvd
  have hle := Int.le_of_dvd h1 hdvds
  simp only [ MODULUS] at hle h2
  omega

/-- Correctness of Schrage's approximate factoring: on states in
`(0, m)` the branchy overflow-free step computes exactly
`(a·s) mod m`. -/
theorem schrage_step (s : Int) (h1 : 0 < s) (h2 : s < MODULUS) :
    lehmerStep s = (MULTIPLIER * s) % MODULUS := by
  have hQ : MODULUS / MULTIPLIER = 44488 := by decide
  have hR : MODULUS % MULTIPLIER = 3399 := by decide
  have htne : MULTIPLIER * (s % 44488) - 3399 * (s / 44488) ≠ 0 := by
    intro h0
    apply modulus_not_dvd h1 h2
    have hlin : MULTIPLIER * s = MODULUS * (s / 44488) := by
      simp only [ MODULUS, MULTIPLIER] at h0 ⊢
      omega
    exact ⟨s / 44488, hlin⟩
  simp only [lehmerStep]
  rw [hQ, hR]
  simp only [ MODULUS, MULTIPLIER] at h2 htne ⊢
  split
  · omega
  · omega

/-- The step keeps the state strictly between `0` and the modulus. -/
theorem lehmerStep_bounds (s : Int) (h1 : 0 < s) (h2 : s < MODULUS) :
    0 < lehmerStep s ∧ lehmerStep s < MODULUS := by
  rw [schrage_step s h1 h2]
  have hnn : 0 ≤ (MULTIPLIER * s) % MODULUS :=
    Int.emod_nonneg _ (by decide)
  have hub : (MULTIPLIER * s) % MODULUS < MODULUS :=
    Int.emod_lt_of_pos _ (by decide)
  refine ⟨?_, hub⟩
  rcases lt_or_eq_of_le hnn with h | h
  · exact h
  · exfalso
    exact modulus_not_dvd h1 h2 (Int.dvd_of_emod_eq_zero h.symm)

/-- `n` Lehmer steps from a state in `(0, m)` compute `(aⁿ·s) mod m`. -/
theorem lehmerIter_pow (n : Nat) : ∀ s : Int, 0 < s → s < MODULUS →
    lehmerIter n s = (MULTIPLIER ^ n * s) % MODULUS := by
  induction n with
  | zero =>
    intro s h1 h2
    simp only [lehmerIter, pow_zero, one_mul]
    rw [Int.emod_eq_of_lt (le_of_lt h1) h2]
  | succ k ih =>
    intro s h1 h2
    obtain ⟨hb1, hb2⟩ := lehmerStep_bounds s h1 h2
    simp only [lehmerIter, forceInt_eq]
    rw [ih (lehmerStep s) hb1 hb2, schrage_step s h1 h2]
    rw [Int.mul_emod, Int.emod_emod_of_dvd _ dvd_rfl, ← Int.mul_emod]
    rw [show MULTIPLIER ^ k * (MULTIPLIER * s) = MULTIPLIER ^ (k + 1) * s by ring]

set_option exponentiation.threshold 20000 in
/-- The 10000-step check value, via `a^10000 mod m` computed on `ℕ`. -/
theorem lehmerIter_check : lehmerIter 10000 1 = 399268537 := by
  rw [lehmerIter_pow 10000 1 (by decide) (by decide), mul_one]
  have hnat : Nat.pow 48271 10000 % 2147483647 = 399268537 := by decide
  have hcast : ((48271 : ℕ) : ℤ) ^ (10000 : ℕ) % ((2147483647 : ℕ) : ℤ) =
      (((Nat.pow 48271 10000 % 2147483647 : ℕ)) : ℤ) := by
    rw [← Nat.cast_pow, Int.ofNat_emod]
    rfl
  simp only [MULTIPLIER, MODULUS]
  rw [show ((48271 : ℤ)) = ((48271 : ℕ) : ℤ) from rfl,
    show ((2147483647 : ℤ)) = ((2147483647 : ℕ) : ℤ) from rfl, hcast, hnat]
  rfl

/-- One `random(0)` call replaces `seed[0]` by a Lehmer step of it and
changes nothing else. -/
theorem random_zero (r : MultiStreamRNG) :
    (r.random 0).2 = { r with seed := r.seed.set 0 (lehmerStep (r.seed.getD 0 0)) } :=
  rfl

theorem drawN_succ (k : Nat) (r : MultiStreamRNG) :
    drawN (k + 1) r = drawN k (r.random 0).2 := by
  simp only [drawN]
  rcases hr : (r.random 0).2 with ⟨st, b, seed⟩
  cases seed with
  | nil => rfl
  | cons s0 rest => cases s0 <;> rfl

/-- `n` draws on stream 0 iterate the Lehmer step on `seed[0]` and
change nothing else. -/
theorem drawN_seed (n : Nat) : ∀ r : MultiStreamRNG,
    drawN n r = { r with seed := r.seed.set 0 (lehmerIter n (r.seed.getD 0 0)) } := by
  induction n with
  | zero =>
    intro r
    cases r with
    | mk st b seed => cases seed <;> rfl
  | succ k ih =>
    intro r
    rw [drawN_succ, random_zero, ih]
    cases r with
    | mk st b seed =>
      cases seed with
      | nil => rfl
      | cons s0 rest =>
        show MultiStreamRNG.mk st b (lehmerIter k (lehmerStep s0) :: rest) =
          MultiStreamRNG.mk st b (lehmerIter (k + 1) s0 :: rest)
        simp only [lehmerIter, forceInt_eq]

theorem plantLoop_length : ∀ (fuel : Nat) (seed : List Int) (j : Nat),
    (plantLoop seed j fuel).length = seed.length := by
  intro fuel
  induction fuel with
  | zero => intro seed j; rfl
  | succ f ih =>
    intro seed j
    simp only [plantLoop]
    split
    · rw [ih, List.length_set]
    · rfl

/-- `plant_seeds` with a positive seed: the current stream's index is
kept, stream 0 is seeded with `x % m` and the others are derived. -/
theorem plant_seeds_pos (r : MultiStreamRNG) (x : Int) (hx : 0 < x) :
    r.plant_seeds x = some ⟨r.stream, true,
      plantLoop (r.seed.set 0 (x % MODULUS)) 1 (STREAMS - 1)⟩ := by
  unfold MultiStreamRNG.plant_seeds MultiStreamRNG.put_seed put_seed_action
  rw [if_pos hx]
  rfl

theorem select_stream_zero (r : MultiStreamRNG) (h : r.init_done = true) :
    r.select_stream 0 = some { r with stream := 0 } := by
  unfold MultiStreamRNG.select_stream
  rw [if_neg]
  · rfl
  · intro hc
    rw [h] at hc
    exact Bool.noConfusion hc.1

theorem put_seed_one (r : MultiStreamRNG) :
    r.put_seed 1 = some { r with seed := r.seed.set r.stream 1 } := by
  unfold MultiStreamRNG.put_seed put_seed_action
  rw [if_pos (by decide : (1 : ℤ) > 0),
    show ((1 : ℤ) % MODULUS) = 1 from by decide]

set_option maxRecDepth 8000 in
/-- C3: on the default-constructed generator, selecting stream 0,
seeding it with `1` via `put_seed` and drawing `10000` uniforms leaves
`seed[0] = 399268537`; and immediately after `plant_seeds(1)`,
`seed[1]` equals the jump multiplier constant `22925`. -/
theorem claim_C3_rng_check_values :
    ((rng_new DEFAULT).bind (fun r =>
      (r.select_stream 0).bind (fun r0 =>
        (r0.put_seed 1).map (fun r1 => (drawN 10000 r1).seed.getD 0 0)))) =
      some 399268537 ∧
    ((rng_new DEFAULT).bind (fun r =>
      (r.plant_seeds 1).map (fun r2 => r2.seed.getD 1 0))) = some 22925 := by
  constructor
  · unfold rng_new
    rw [plant_seeds_pos _ _ (by decide), Option.some_bind,
      select_stream_zero _ rfl, Option.some_bind, put_seed_one,
      Option.map_some', Option.some_inj, drawN_seed]
    dsimp only
    have hlen : (plantLoop ((List.replicate STREAMS DEFAULT).set 0
        (DEFAULT % MODULUS)) 1 (STREAMS - 1)).length = 256 := by
      rw [plantLoop_length, List.length_set, List.length_replicate]
      rfl
    obtain ⟨x, xs, hcons⟩ := List.exists_cons_of_ne_nil
      (List.ne_nil_of_length_pos (by rw [hlen]; omega))
    rw [hcons]
    rw [List.set_cons_zero, List.getD_cons_zero, List.set_cons_zero,
      List.getD_cons_zero]
    exact lehmerIter_check
  · decide

/-- C4 counterexample: a Network constructed with an empty routing
table over a service-rate table with one reachable pair `("A", "c1")`
is built without any error (its node map is populated), and the missing
routing entry first surfaces as a `KeyError` when the departure handler
looks it up at simulation time — construction did not fail fast. -/
theorem claim_C4_fail_fast_counterexample :
    (Network.init ⟨[], 0⟩ [] [(("A", "c1"), 2)]).nodes =
      [("A", ⟨"A", [("c1", 2)], [], 0, none⟩)] ∧
    on_departure_route (Network.init ⟨[], 0⟩ [] [(("A", "c1"), 2)]) "A" "c1" =
      Except.error "KeyError" := by
  constructor
  · rfl
  · rfl

/-- C4 amended: `Network` construction performs no routing validation —
it always succeeds and its node map does not depend on the routing
table at all; a routing entry missing for a pair first surfaces during
simulation as a `KeyError` raised by the departure handler's lookup. -/
theorem claim_C4_routing_error_at_runtime
    (rm rm' : List ((String × String) × RouteTarget))
    (sch : NextEventScheduler) (sr : List ((String × String) × ℚ))
    (k : String × String) (h : routingLookup rm k = none) :
    (Network.init sch rm sr).nodes = (Network.init sch rm' sr).nodes ∧
    on_departure_route (Network.init sch rm sr) k.1 k.2 =
      Except.error "KeyError" := by
  constructor
  · rfl
  · unfold on_departure_route
    have hk : routingLookup (Network.init sch rm sr).routing_matrix
        (k.1, k.2) = none := h
    rw [hk]

/-- Witness for the amended C4 on a concrete incomplete routing table:
the pair `("B", "c2")` is unmapped. -/
theorem claim_C4_routing_error_at_runtime_witness :
    (Network.init ⟨[], 0⟩ [(("A", "c1"), RouteTarget.hop "B" "c2")]
        [(("A", "c1"), 2)]).nodes =
      (Network.init ⟨[], 0⟩ [] [(("A", "c1"), 2)]).nodes ∧
    on_departure_route (Network.init ⟨[], 0⟩
        [(("A", "c1"), RouteTarget.hop "B" "c2")] [(("A", "c1"), 2)])
        "B" "c2" =
      Except.error "KeyError" :=
  claim_C4_routing_error_at_runtime
    [(("A", "c1"), RouteTarget.hop "B" "c2")] [] ⟨[], 0⟩
    [(("A", "c1"), 2)] ("B", "c2") (by decide)

/-- C5 (refuted by the code): the very first finalization call in
`Simulation.run` raises `AttributeError` on every run that drains its
queue, because `BusyTimeEstimator` defines no `finalize` method; `run`
therefore never finalizes the estimators nor returns the collected
metrics. -/
theorem claim_C5_finalize_missing (b : BusyTimeEstimator) (now : ℚ) :
    run_end_finalize b now = Except.error "AttributeError" := by
  unfold run_end_finalize
  rw [if_neg]
  decide

end PMCNS
